import Mathlib

/-!
Verification of the Birthday Announcement & Role-Lifecycle Scheduler of
Johnnycyan/cyan-birthdays.

The Go sources are shallowly embedded as follows.

* Instants are `Int` minutes since an arbitrary epoch, in UTC.  An IANA
  timezone is modelled as a fixed UTC offset in minutes (`Env.zones`); an
  unrecognized identifier maps to `none`, which models the error returned by
  `time.LoadLocation`.  Converting an instant to a local calendar date is
  modelled by `Env.calendar`, an abstract map from local day index
  (floor of local minutes / 1440) to a civil (year, month, day) triple; the
  same calendar is shared by every zone, exactly as in Go where the civil
  fields of an instant in a fixed-offset zone are a function of the local
  day index alone.
* The external collaborators (Discord session, postgres repository) are an
  explicit environment `Env`.  Each repository/session call made by the
  scheduler loop is a field of `Env`; `none` models the call returning an
  error (or not-found, where the code treats both alike).
* A scheduler pass is pure and returns the ordered list of externally
  visible side-effect calls it makes (`Effect`): role grant, expiry-row
  upsert, message send, role revoke, expiry-row delete.
* Go strings are lists of runes (`List Char`).
-/

/-- Civil date produced by the calendar for a local day index
(the year/month/day fields of a `time.Time`). -/
structure Civil where
  year : Int
  month : Int
  day : Int
deriving DecidableEq

/-- A fetched guild member (`discordgo.Member`): username and live role ids. -/
structure Member where
  username : List Char
  roles : List String
deriving DecidableEq

/-- `database.MemberBirthday` (src/unnamed/part_002). -/
structure MemberBirthday where
  userID : String
  month : Int
  day : Int
  year : Option Int
  timezone : String
deriving DecidableEq

/-- `database.GuildSettings` (src/unnamed/part_002), the fields the
scheduler loop reads. -/
structure GuildSettings where
  guildID : String
  channelID : Option String
  roleID : Option String
  timeUTC : Int
  messageWithYear : List Char
  messageWithoutYear : List Char
  allowRoleMention : Bool
  requiredRoleID : Option String
  defaultTimezone : String
deriving DecidableEq

/-- `database.ActiveBirthdayRole` (src/unnamed/part_002): a row of the
`active_birthday_roles` table. -/
structure ActiveBirthdayRole where
  guildID : String
  userID : String
  roleAssignedAt : Int
  roleExpiresAt : Int
deriving DecidableEq

/-- The environment of one scheduler pass: the sampled instant, the timezone
database, the calendar, and the outcome of every external call the pass can
make.  `none` values model calls that return an error. -/
structure Env where
  /-- `time.Now()` sampled during the pass, minutes since epoch, UTC. -/
  now : Int
  /-- `time.LoadLocation`: IANA name to fixed UTC offset in minutes. -/
  zones : String → Option Int
  /-- Local day index to civil date. -/
  calendar : Int → Civil
  /-- `session.GuildMember guildID userID` result. -/
  memberOf : String → String → Option Member
  /-- Whether `session.GuildMemberRoleAdd guildID userID` succeeds. -/
  grantOk : String → String → Bool
  /-- Whether `repo.SetActiveBirthdayRole` succeeds. -/
  storeOk : Bool
  /-- `repo.GetAllSetupGuilds` result. -/
  guilds : Option (List GuildSettings)
  /-- `repo.GetAllGuildBirthdays guildID` result. -/
  birthdays : String → Option (List MemberBirthday)
  /-- Whether the guild is found in session state or fetchable. -/
  guildAccessible : String → Bool
  /-- `repo.GetGuildSettings guildID` result (used by the sweeper). -/
  guildSettings : String → Option GuildSettings
  /-- Whether `repo.GetExpiredBirthdayRoles` succeeds. -/
  listExpiredOk : Bool

/-! ## Local-Time Resolver — internal/timezone/timezone.go -/

/-- `timezone.GetLocalHour`: the current hour in the given timezone, or an
error when the identifier is unrecognized. -/
def GetLocalHour (env : Env) (ianaName : String) : Option Int :=
  (env.zones ianaName).map fun off => ((env.now + off) % 1440) / 60

/-- `timezone.GetLocalDate`: the current (month, day) in the given timezone,
or an error when the identifier is unrecognized. -/
def GetLocalDate (env : Env) (ianaName : String) : Option (Int × Int) :=
  (env.zones ianaName).map fun off =>
    let c := env.calendar (((env.now + off) / 1440))
    (c.month, c.day)

/-- `timezone.IsBirthdayToday`: whether (month, day) is today in the given
timezone. -/
def IsBirthdayToday (env : Env) (month day : Int) (ianaName : String) :
    Option Bool :=
  (GetLocalDate env ianaName).map fun md => md.1 == month && md.2 == day

/-- `timezone.ShouldAnnounce`: whether the current local hour equals the
target hour. -/
def ShouldAnnounce (env : Env) (targetHour : Int) (userTimezone : String) :
    Option Bool :=
  (GetLocalHour env userTimezone).map fun h => h == targetHour

/-! ## Role-Lifecycle Store — src/unnamed/part_002

The `active_birthday_roles` table is a list of rows; the primary key
`(guild_id, user_id)` is modelled by having the upsert drop every row of
the pair before appending the new one, which is what the SQL
`ON CONFLICT (guild_id, user_id) DO UPDATE` does on a table where the pair
is unique. -/

/-- `Repository.SetActiveBirthdayRole`: insert or replace the row for
(guildID, userID); `role_assigned_at` is set to now. -/
def setActiveBirthdayRole (s : List ActiveBirthdayRole)
    (guildID userID : String) (assignedAt expiresAt : Int) :
    List ActiveBirthdayRole :=
  s.filter (fun r => !(r.guildID == guildID && r.userID == userID)) ++
    [⟨guildID, userID, assignedAt, expiresAt⟩]

/-- `Repository.GetExpiredBirthdayRoles`: all rows with
`role_expires_at <= NOW()`, across all guilds. -/
def getExpiredBirthdayRoles (s : List ActiveBirthdayRole) (now : Int) :
    List ActiveBirthdayRole :=
  s.filter (fun r => decide (r.roleExpiresAt ≤ now))

/-- `Repository.DeleteActiveBirthdayRole`: remove the rows of the pair. -/
def deleteActiveBirthdayRole (s : List ActiveBirthdayRole)
    (guildID userID : String) : List ActiveBirthdayRole :=
  s.filter (fun r => !(r.guildID == guildID && r.userID == userID))

/-- `Repository.HasActiveBirthdayRole`: whether a row exists for the pair. -/
def hasActiveBirthdayRole (s : List ActiveBirthdayRole)
    (guildID userID : String) : Bool :=
  s.any (fun r => r.guildID == guildID && r.userID == userID)

/-! ## Message formatting — internal/bot/interactions.go `formatMessage`

Go's `strings.ReplaceAll s old new` replaces every non-overlapping
occurrence of `old` in `s`, scanning left to right, and does not rescan the
replacement text.  It is embedded on rune lists by `replaceAll`, written
with an explicit fuel argument (the scan consumes at least one rune per
step, so `s.length` fuel always suffices; `replaceAllFuel_congr` below
proves the fuel is irrelevant).  The program only ever passes the three
nonempty placeholder patterns. -/

/-- Whether the first list is a prefix of the second (rune comparison at the
scan position, as in Go's `strings.Index` machinery). -/
def hasPrefixList : List Char → List Char → Bool
  | [], _ => true
  | _ :: _, [] => false
  | a :: as, b :: bs => a == b && hasPrefixList as bs

/-- Fueled scanner for `strings.ReplaceAll`. -/
def replaceAllFuel (pat rep : List Char) : Nat → List Char → List Char
  | _, [] => []
  | 0, s => s
  | fuel + 1, c :: rest =>
    if hasPrefixList pat (c :: rest) && !pat.isEmpty then
      rep ++ replaceAllFuel pat rep fuel ((c :: rest).drop pat.length)
    else
      c :: replaceAllFuel pat rep fuel rest

/-- `strings.ReplaceAll` on rune lists (for a nonempty pattern). -/
def replaceAll (pat rep s : List Char) : List Char :=
  replaceAllFuel pat rep s.length s

/-- The characters of the mention placeholder. -/
def mentionPat : List Char := ['{', 'm', 'e', 'n', 't', 'i', 'o', 'n', '}']

/-- The characters of the name placeholder. -/
def namePat : List Char := ['{', 'n', 'a', 'm', 'e', '}']

/-- The characters of the age placeholder. -/
def agePat : List Char := ['{', 'n', 'e', 'w', '_', 'a', 'g', 'e', '}']

/-- The replacement text for the mention placeholder: `<@` ++ userID ++ `>`. -/
def mentionText (userID : List Char) : List Char :=
  '<' :: '@' :: (userID ++ ['>'])

/-- `strconv.Itoa` on the embedded integers. -/
def intToString (i : Int) : List Char := (toString i).data

/-- `formatMessage` (internal/bot/interactions.go): substitute the mention
placeholder, then the name placeholder, then — only when an age is
supplied — the age placeholder. -/
def formatMessage (template name userID : List Char) (age : Option Int) :
    List Char :=
  let r1 := replaceAll mentionPat (mentionText userID) template
  let r2 := replaceAll namePat name r1
  match age with
  | some a => replaceAll agePat (intToString a) r2
  | none => r2

/-! ## Scheduler pass — internal/bot/loop.go

One pass is pure and produces the ordered list of external side-effect
calls it makes. -/

/-- An externally visible side-effect call of a scheduler pass.  The
`storeUpsert` effect records whether the repository write succeeded (the
code only logs a failure and continues). -/
inductive Effect where
  | roleAdd (guildID userID roleID : String)
  | storeUpsert (guildID userID : String) (expiresAt : Int) (ok : Bool)
  | send (channelID : String) (content : List Char)
  | roleRemove (guildID userID roleID : String)
  | storeDelete (guildID userID : String)
deriving DecidableEq

/-- The expiry computed on a trigger (loop.go lines 188-198): today's date
at the guild announcement hour in the member's timezone (UTC when the
timezone fails to load), plus 24 hours, as a UTC instant. -/
def computeExpiresAt (env : Env) (tz : String) (hour : Int) : Int :=
  let off := (env.zones tz).getD 0
  let localNow := env.now + off
  (1440 * (localNow / 1440) + 60 * hour - off) + 1440

/-- Spec-side formulation for the expiry contract: the member's local
announcement instant of the current local day — today's date at `hour`
o'clock in the zone at offset `off` — as a UTC instant. -/
def localAnnouncementInstant (env : Env) (off hour : Int) : Int :=
  1440 * ((env.now + off) / 1440) + 60 * hour - off

/-- The announcement message composed on a trigger (loop.go lines 205-213):
the with-year template with age = local current year minus birth year when
a positive birth year is recorded, the without-year template otherwise. -/
def birthdayMessage (env : Env) (gs : GuildSettings) (bd : MemberBirthday)
    (m : Member) : List Char :=
  let off := (env.zones bd.timezone).getD 0
  match bd.year with
  | some y =>
    if y > 0 then
      let age := (env.calendar (((env.now + off) / 1440))).year - y
      formatMessage gs.messageWithYear m.username bd.userID.data (some age)
    else
      formatMessage gs.messageWithoutYear m.username bd.userID.data none
  | none => formatMessage gs.messageWithoutYear m.username bd.userID.data none

/-- The required-role gate (loop.go lines 152-164): when a required role is
configured the member must hold it. -/
def requiredRoleOk (gs : GuildSettings) (m : Member) : Bool :=
  match gs.requiredRoleID with
  | some rr => m.roles.contains rr
  | none => true

/-- `processMemberBirthday` (loop.go lines 112-231).  `roleID` and
`channelID` are the dereferenced guild role and channel, non-nil by the
caller's guard.  Steps, in source order: birthday date check in the
member's timezone with a UTC fallback on resolver error; announcement-hour
check (a resolver error skips the member); member fetch; required-role
gate; live birthday-role check; role grant (failure aborts the rest);
expiry-row upsert (failure only logged); message send. -/
def processMemberBirthday (env : Env) (gs : GuildSettings)
    (roleID channelID : String) (bd : MemberBirthday) : List Effect :=
  let isBirthday :=
    match IsBirthdayToday env bd.month bd.day bd.timezone with
    | some b => b
    | none => (IsBirthdayToday env bd.month bd.day "UTC").getD false
  if !isBirthday then [] else
  match ShouldAnnounce env gs.timeUTC bd.timezone with
  | none => []
  | some sa =>
    if !sa then [] else
    match env.memberOf gs.guildID bd.userID with
    | none => []
    | some m =>
      if !requiredRoleOk gs m then [] else
      if m.roles.contains roleID then [] else
      if !env.grantOk gs.guildID bd.userID then
        [Effect.roleAdd gs.guildID bd.userID roleID]
      else
        Effect.roleAdd gs.guildID bd.userID roleID ::
        Effect.storeUpsert gs.guildID bd.userID
          (computeExpiresAt env bd.timezone gs.timeUTC) env.storeOk ::
        [Effect.send channelID (birthdayMessage env gs bd m)]

/-- `processGuildBirthdays` (loop.go lines 79-109): skip the guild when the
channel or role is unset, the birthday fetch errors, or the guild is
inaccessible; otherwise evaluate each member in order. -/
def processGuildBirthdays (env : Env) (gs : GuildSettings) : List Effect :=
  match gs.channelID, gs.roleID with
  | some c, some r =>
    match env.birthdays gs.guildID with
    | none => []
    | some bds =>
      if env.guildAccessible gs.guildID then
        bds.flatMap (processMemberBirthday env gs r c)
      else []
  | _, _ => []

/-- The sweeper's handling of one expired row (loop.go lines 250-276): a
settings-lookup error or a missing role id skips the revoke but still
deletes the row; otherwise the revoke is requested and the row is deleted
regardless of the revoke's outcome (a revoke failure is only logged). -/
def cleanupRow (env : Env) (ar : ActiveBirthdayRole) : List Effect :=
  match env.guildSettings ar.guildID with
  | none => [Effect.storeDelete ar.guildID ar.userID]
  | some gs =>
    match gs.roleID with
    | none => [Effect.storeDelete ar.guildID ar.userID]
    | some r =>
      [Effect.roleRemove ar.guildID ar.userID r,
       Effect.storeDelete ar.guildID ar.userID]

/-- `cleanupExpiredBirthdayRoles` (loop.go lines 234-277): list the expired
rows (an error aborts the sweep) and handle each in order. -/
def cleanupExpiredBirthdayRoles (env : Env)
    (store : List ActiveBirthdayRole) : List Effect :=
  if !env.listExpiredOk then [] else
  (getExpiredBirthdayRoles store env.now).flatMap (cleanupRow env)

/-- `processBirthdays` (loop.go lines 53-76): one pass — the sweeper runs
first, then, when the setup-guilds fetch succeeds, every guild is
processed in order. -/
def processBirthdays (env : Env) (store : List ActiveBirthdayRole) :
    List Effect :=
  cleanupExpiredBirthdayRoles env store ++
    (match env.guilds with
     | none => []
     | some gss => gss.flatMap (processGuildBirthdays env))

/-- Sweep-phase effects: role revoke and expiry-row delete. -/
def sweepEffect : Effect → Bool
  | Effect.roleRemove _ _ _ => true
  | Effect.storeDelete _ _ => true
  | _ => false

/-- Evaluation-phase effects: role grant, expiry-row upsert, message send. -/
def announceEffect : Effect → Bool
  | Effect.roleAdd _ _ _ => true
  | Effect.storeUpsert _ _ _ _ => true
  | Effect.send _ _ => true
  | _ => false

/-! ## Lemmas about the embedded `strings.ReplaceAll` -/

/-- The fuel of `replaceAllFuel` is irrelevant once it covers the input
length. -/
theorem replaceAllFuel_congr (pat rep : List Char) :
    ∀ f1 : Nat, ∀ f2 : Nat, ∀ s : List Char,
      s.length ≤ f1 → s.length ≤ f2 →
      replaceAllFuel pat rep f1 s = replaceAllFuel pat rep f2 s := by
  intro f1
  induction f1 with
  | zero =>
    intro f2 s h1 _
    have hs : s = [] := List.eq_nil_of_length_eq_zero (Nat.le_zero.mp h1)
    subst hs
    cases f2 <;> rfl
  | succ f1 ih =>
    intro f2 s h1 h2
    cases s with
    | nil => cases f2 <;> rfl
    | cons c rest =>
      cases f2 with
      | zero => exact absurd h2 (by simp)
      | succ f2 =>
        simp only [replaceAllFuel]
        by_cases hc : (hasPrefixList pat (c :: rest) && !pat.isEmpty) = true
        · rw [if_pos hc, if_pos hc]
          have hpat : 1 ≤ pat.length := by
            rcases pat with _ | ⟨p, ps⟩
            · simp at hc
            · simp
          have hd : ((c :: rest).drop pat.length).length ≤ rest.length := by
            simp only [List.length_drop, List.length_cons]
            omega
          have h1' : ((c :: rest).drop pat.length).length ≤ f1 := by
            have : rest.length ≤ f1 := by simpa using Nat.lt_succ_iff.mp h1
            omega
          have h2' : ((c :: rest).drop pat.length).length ≤ f2 := by
            have : rest.length ≤ f2 := by simpa using Nat.lt_succ_iff.mp h2
            omega
          rw [ih f2 _ h1' h2']
        · rw [if_neg hc, if_neg hc]
          have h1' : rest.length ≤ f1 := by simpa using Nat.lt_succ_iff.mp h1
          have h2' : rest.length ≤ f2 := by simpa using Nat.lt_succ_iff.mp h2
          rw [ih f2 rest h1' h2']

/-- `replaceAll` on the empty input. -/
theorem replaceAll_nil (pat rep : List Char) : replaceAll pat rep [] = [] := rfl

/-- One scan step of `replaceAll`. -/
theorem replaceAll_cons (pat rep : List Char) (c : Char) (rest : List Char) :
    replaceAll pat rep (c :: rest) =
      if hasPrefixList pat (c :: rest) && !pat.isEmpty then
        rep ++ replaceAll pat rep ((c :: rest).drop pat.length)
      else
        c :: replaceAll pat rep rest := by
  show replaceAllFuel pat rep (rest.length + 1) (c :: rest) = _
  simp only [replaceAllFuel]
  by_cases hc : (hasPrefixList pat (c :: rest) && !pat.isEmpty) = true
  · rw [if_pos hc, if_pos hc]
    have hpat : 1 ≤ pat.length := by
      rcases pat with _ | ⟨p, ps⟩
      · simp at hc
      · simp
    have hd : ((c :: rest).drop pat.length).length ≤ rest.length := by
      simp only [List.length_drop, List.length_cons]
      omega
    rw [replaceAllFuel_congr pat rep rest.length ((c :: rest).drop pat.length).length
        _ hd (le_refl _)]
    rfl
  · rw [if_neg hc, if_neg hc]
    rfl

/-- A list is a prefix of itself followed by anything. -/
theorem hasPrefixList_append_self (pat ys : List Char) :
    hasPrefixList pat (pat ++ ys) = true := by
  induction pat with
  | nil => rfl
  | cons p ps ih => simp [hasPrefixList, ih]

/-- A mismatch at any position below both lengths refutes the prefix test,
whatever follows the candidate segment. -/
theorem hasPrefixList_eq_false_of_mismatch (pat xs : List Char) (i : Nat)
    (h1 : i < pat.length) (h2 : i < xs.length)
    (hne : pat.get ⟨i, h1⟩ ≠ xs.get ⟨i, h2⟩) (ys : List Char) :
    hasPrefixList pat (xs ++ ys) = false := by
  induction pat generalizing xs i with
  | nil => exact absurd h1 (by simp)
  | cons p ps ih =>
    cases xs with
    | nil => exact absurd h2 (by simp)
    | cons x xt =>
      cases i with
      | zero =>
        have : (p == x) = false := by
          simp only [List.get] at hne
          simpa using hne
        simp [hasPrefixList, this]
      | succ i =>
        have h1' : i < ps.length := Nat.lt_of_succ_lt_succ h1
        have h2' : i < xt.length := Nat.lt_of_succ_lt_succ h2
        have := ih xt i h1' h2' (by simpa [List.get] using hne)
        simp [hasPrefixList, this]

/-- S1: the scan passes unchanged over a segment containing no opening
brace, for patterns that start with an opening brace. -/
theorem replaceAll_append_brace_free (pat rep xs ys : List Char)
    (hp : pat.head? = some '{') (hx : '{' ∉ xs) :
    replaceAll pat rep (xs ++ ys) = xs ++ replaceAll pat rep ys := by
  induction xs with
  | nil => rfl
  | cons c xt ih =>
    have hcne : c ≠ '{' := fun h => hx (h ▸ List.mem_cons_self c xt)
    rcases pat with _ | ⟨p, pt⟩
    · simp at hp
    · have hpc : p = '{' := by simpa using hp
      have hpre : hasPrefixList (p :: pt) (c :: (xt ++ ys)) = false := by
        have : (p == c) = false := by
          subst hpc
          simpa using fun h => hcne h.symm
        simp [hasPrefixList, this]
      rw [List.cons_append, replaceAll_cons]
      rw [if_neg (by simp [hpre])]
      rw [ih (fun h => hx (List.mem_cons_of_mem c h))]
      rfl

/-- S2: the scan replaces the pattern when the pattern itself comes next. -/
theorem replaceAll_append_pat (pat rep ys : List Char) (hne : pat ≠ []) :
    replaceAll pat rep (pat ++ ys) = rep ++ replaceAll pat rep ys := by
  rcases pat with _ | ⟨p, pt⟩
  · exact absurd rfl hne
  · rw [List.cons_append, replaceAll_cons]
    have hpre := hasPrefixList_append_self (p :: pt) ys
    rw [if_pos (by simp [List.cons_append] at hpre ⊢; simpa using hpre)]
    congr 1
    rw [← List.cons_append, List.drop_left]

/-- S3: the scan passes unchanged over a different placeholder: a segment
that starts with an opening brace, has no other opening brace, and
mismatches the pattern at some position. -/
theorem replaceAll_append_other_placeholder (pat rep xt ys : List Char)
    (i : Nat) (h1 : i < pat.length) (h2 : i < ('{' :: xt).length)
    (hne : pat.get ⟨i, h1⟩ ≠ ('{' :: xt).get ⟨i, h2⟩)
    (hp : pat.head? = some '{') (hxt : '{' ∉ xt) :
    replaceAll pat rep (('{' :: xt) ++ ys) =
      ('{' :: xt) ++ replaceAll pat rep ys := by
  have hpre := hasPrefixList_eq_false_of_mismatch pat ('{' :: xt) i h1 h2 hne ys
  rw [List.cons_append, replaceAll_cons]
  rw [if_neg (by simp [List.cons_append] at hpre ⊢; simp [hpre])]
  rw [replaceAll_append_brace_free pat rep xt ys hp hxt]
  rfl

/-! ## Templates as an alternation of literal text and placeholders

To state what `formatMessage` does to every occurrence of each placeholder,
templates are presented as a list of pieces — literal segments and
placeholder markers — flattened to the actual template string; the
simultaneous-substitution semantics of such a template is `renderPieces`. -/

/-- A template piece: literal text or one of the three placeholders. -/
inductive Piece where
  | lit (s : List Char)
  | mention
  | name
  | newAge
deriving DecidableEq

/-- The template text of a piece list. -/
def flattenPieces : List Piece → List Char
  | [] => []
  | Piece.lit s :: ps => s ++ flattenPieces ps
  | Piece.mention :: ps => mentionPat ++ flattenPieces ps
  | Piece.name :: ps => namePat ++ flattenPieces ps
  | Piece.newAge :: ps => agePat ++ flattenPieces ps

/-- The template after the mention pass only. -/
def renderAfterMention (userID : List Char) : List Piece → List Char
  | [] => []
  | Piece.lit s :: ps => s ++ renderAfterMention userID ps
  | Piece.mention :: ps => mentionText userID ++ renderAfterMention userID ps
  | Piece.name :: ps => namePat ++ renderAfterMention userID ps
  | Piece.newAge :: ps => agePat ++ renderAfterMention userID ps

/-- The template after the mention and name passes. -/
def renderAfterName (userID nm : List Char) : List Piece → List Char
  | [] => []
  | Piece.lit s :: ps => s ++ renderAfterName userID nm ps
  | Piece.mention :: ps => mentionText userID ++ renderAfterName userID nm ps
  | Piece.name :: ps => nm ++ renderAfterName userID nm ps
  | Piece.newAge :: ps => agePat ++ renderAfterName userID nm ps

/-- Simultaneous substitution: every mention placeholder becomes the
mention text, every name placeholder the name, every age placeholder the
rendered age when one is supplied (and stays verbatim otherwise); literal
text is unchanged. -/
def renderPieces (userID nm : List Char) (age : Option Int) :
    List Piece → List Char
  | [] => []
  | Piece.lit s :: ps => s ++ renderPieces userID nm age ps
  | Piece.mention :: ps => mentionText userID ++ renderPieces userID nm age ps
  | Piece.name :: ps => nm ++ renderPieces userID nm age ps
  | Piece.newAge :: ps =>
    (match age with
     | some a => intToString a
     | none => agePat) ++ renderPieces userID nm age ps

/-- The mention text contains no opening brace when the user id does not. -/
theorem brace_notin_mentionText (userID : List Char) (hu : '{' ∉ userID) :
    '{' ∉ mentionText userID := by
  intro h
  simp only [mentionText, List.mem_cons, List.mem_append,
    List.mem_singleton] at h
  rcases h with h | h | h | h
  · exact absurd h (by decide)
  · exact absurd h (by decide)
  · exact hu h
  · exact absurd h (by decide)

/-- The mention pass skips a name placeholder. -/
theorem replaceAll_mention_skip_name (rep ys : List Char) :
    replaceAll mentionPat rep (namePat ++ ys) =
      namePat ++ replaceAll mentionPat rep ys :=
  replaceAll_append_other_placeholder mentionPat rep ['n', 'a', 'm', 'e', '}']
    ys 1 (by decide) (by decide) (by decide) (by decide) (by decide)

/-- The mention pass skips an age placeholder. -/
theorem replaceAll_mention_skip_age (rep ys : List Char) :
    replaceAll mentionPat rep (agePat ++ ys) =
      agePat ++ replaceAll mentionPat rep ys :=
  replaceAll_append_other_placeholder mentionPat rep
    ['n', 'e', 'w', '_', 'a', 'g', 'e', '}'] ys 1
    (by decide) (by decide) (by decide) (by decide) (by decide)

/-- The name pass skips an age placeholder. -/
theorem replaceAll_name_skip_age (rep ys : List Char) :
    replaceAll namePat rep (agePat ++ ys) =
      agePat ++ replaceAll namePat rep ys :=
  replaceAll_append_other_placeholder namePat rep
    ['n', 'e', 'w', '_', 'a', 'g', 'e', '}'] ys 2
    (by decide) (by decide) (by decide) (by decide) (by decide)

/-- The mention pass over a flattened template substitutes exactly the
mention placeholders. -/
theorem replaceAll_mention_flatten (userID : List Char) :
    ∀ ps : List Piece, (∀ s, Piece.lit s ∈ ps → '{' ∉ s) →
      replaceAll mentionPat (mentionText userID) (flattenPieces ps) =
        renderAfterMention userID ps := by
  intro ps
  induction ps with
  | nil => intro _; rfl
  | cons p pt ih =>
    intro hl
    have hlt : ∀ s, Piece.lit s ∈ pt → '{' ∉ s :=
      fun s hs => hl s (List.mem_cons_of_mem p hs)
    cases p with
    | lit s =>
      have hs : '{' ∉ s := hl s (List.mem_cons_self _ _)
      simp only [flattenPieces, renderAfterMention]
      rw [replaceAll_append_brace_free _ _ _ _ (by decide) hs, ih hlt]
    | mention =>
      simp only [flattenPieces, renderAfterMention]
      rw [replaceAll_append_pat _ _ _ (by decide), ih hlt]
    | name =>
      simp only [flattenPieces, renderAfterMention]
      rw [replaceAll_mention_skip_name, ih hlt]
    | newAge =>
      simp only [flattenPieces, renderAfterMention]
      rw [replaceAll_mention_skip_age, ih hlt]

/-- The name pass after the mention pass substitutes exactly the name
placeholders, provided the user id introduced no opening brace. -/
theorem replaceAll_name_render (userID nm : List Char) (hu : '{' ∉ userID) :
    ∀ ps : List Piece, (∀ s, Piece.lit s ∈ ps → '{' ∉ s) →
      replaceAll namePat nm (renderAfterMention userID ps) =
        renderAfterName userID nm ps := by
  intro ps
  induction ps with
  | nil => intro _; rfl
  | cons p pt ih =>
    intro hl
    have hlt : ∀ s, Piece.lit s ∈ pt → '{' ∉ s :=
      fun s hs => hl s (List.mem_cons_of_mem p hs)
    cases p with
    | lit s =>
      have hs : '{' ∉ s := hl s (List.mem_cons_self _ _)
      simp only [renderAfterMention, renderAfterName]
      rw [replaceAll_append_brace_free _ _ _ _ (by decide) hs, ih hlt]
    | mention =>
      simp only [renderAfterMention, renderAfterName]
      rw [replaceAll_append_brace_free _ _ _ _ (by decide)
          (brace_notin_mentionText userID hu), ih hlt]
    | name =>
      simp only [renderAfterMention, renderAfterName]
      rw [replaceAll_append_pat _ _ _ (by decide), ih hlt]
    | newAge =>
      simp only [renderAfterMention, renderAfterName]
      rw [replaceAll_name_skip_age, ih hlt]

/-- The age pass after the mention and name passes substitutes exactly the
age placeholders, provided neither the user id nor the name introduced an
opening brace. -/
theorem replaceAll_age_render (userID nm : List Char) (a : Int)
    (hu : '{' ∉ userID) (hn : '{' ∉ nm) :
    ∀ ps : List Piece, (∀ s, Piece.lit s ∈ ps → '{' ∉ s) →
      replaceAll agePat (intToString a) (renderAfterName userID nm ps) =
        renderPieces userID nm (some a) ps := by
  intro ps
  induction ps with
  | nil => intro _; rfl
  | cons p pt ih =>
    intro hl
    have hlt : ∀ s, Piece.lit s ∈ pt → '{' ∉ s :=
      fun s hs => hl s (List.mem_cons_of_mem p hs)
    cases p with
    | lit s =>
      have hs : '{' ∉ s := hl s (List.mem_cons_self _ _)
      simp only [renderAfterName, renderPieces]
      rw [replaceAll_append_brace_free _ _ _ _ (by decide) hs, ih hlt]
    | mention =>
      simp only [renderAfterName, renderPieces]
      rw [replaceAll_append_brace_free _ _ _ _ (by decide)
          (brace_notin_mentionText userID hu), ih hlt]
    | name =>
      simp only [renderAfterName, renderPieces]
      rw [replaceAll_append_brace_free _ _ _ _ (by decide) hn, ih hlt]
    | newAge =>
      simp only [renderAfterName, renderPieces]
      rw [replaceAll_append_pat _ _ _ (by decide), ih hlt]

/-- Without an age, the simultaneous substitution leaves age placeholders
verbatim, so it agrees with the mention-and-name render. -/
theorem renderPieces_none (userID nm : List Char) :
    ∀ ps : List Piece,
      renderPieces userID nm none ps = renderAfterName userID nm ps := by
  intro ps
  induction ps with
  | nil => rfl
  | cons p pt ih => cases p <;> simp only [renderPieces, renderAfterName, ih]

/-! ## Lemmas about a member evaluation -/

/-- The positive path of a member evaluation: when the date matches, the
hour matches, the member is fetched, the required-role gate passes, and
the member does not already hold the birthday role live, the trace is the
grant, then the expiry upsert, then the send — or the failed grant alone. -/
theorem processMemberBirthday_trigger (env : Env) (gs : GuildSettings)
    (roleID channelID : String) (bd : MemberBirthday) (m : Member)
    (hbd : IsBirthdayToday env bd.month bd.day bd.timezone = some true)
    (hha : ShouldAnnounce env gs.timeUTC bd.timezone = some true)
    (hm : env.memberOf gs.guildID bd.userID = some m)
    (hreq : requiredRoleOk gs m = true)
    (hnr : m.roles.contains roleID = false) :
    processMemberBirthday env gs roleID channelID bd =
      if env.grantOk gs.guildID bd.userID then
        [Effect.roleAdd gs.guildID bd.userID roleID,
         Effect.storeUpsert gs.guildID bd.userID
           (computeExpiresAt env bd.timezone gs.timeUTC) env.storeOk,
         Effect.send channelID (birthdayMessage env gs bd m)]
      else [Effect.roleAdd gs.guildID bd.userID roleID] := by
  have hnr' : roleID ∉ m.roles := by simpa using hnr
  unfold processMemberBirthday
  rw [hbd, hha, hm]
  cases hg : env.grantOk gs.guildID bd.userID <;> simp [hreq, hnr', hg]

/-- A member whose live role list already carries the birthday role is
skipped with no effects. -/
theorem processMemberBirthday_skip_live_role (env : Env) (gs : GuildSettings)
    (roleID channelID : String) (bd : MemberBirthday) (m : Member)
    (hm : env.memberOf gs.guildID bd.userID = some m)
    (hc : m.roles.contains roleID = true) :
    processMemberBirthday env gs roleID channelID bd = [] := by
  unfold processMemberBirthday
  rw [hm]
  simp only [hc, if_true]
  split
  · rfl
  · split
    · rfl
    · split
      · rfl
      · split
        · rfl
        · simp [hc]

/-- C4 (amended): an unrecognized timezone makes the hour check error out,
which skips the member for the cycle (the date check's UTC fallback never
leads to a trigger). -/
theorem invalid_timezone_member_skipped (env : Env) (gs : GuildSettings)
    (roleID channelID : String) (bd : MemberBirthday)
    (hz : env.zones bd.timezone = none) :
    IsBirthdayToday env bd.month bd.day bd.timezone = none ∧
    ShouldAnnounce env gs.timeUTC bd.timezone = none ∧
    processMemberBirthday env gs roleID channelID bd = [] := by
  have hd : IsBirthdayToday env bd.month bd.day bd.timezone = none := by
    simp [IsBirthdayToday, GetLocalDate, hz]
  have hh : ShouldAnnounce env gs.timeUTC bd.timezone = none := by
    simp [ShouldAnnounce, GetLocalHour, hz]
  refine ⟨hd, hh, ?_⟩
  unfold processMemberBirthday
  rw [hd, hh]
  cases hfb : (IsBirthdayToday env bd.month bd.day "UTC").getD false <;>
    simp [hfb]

/-- C1 (amended): for a recognized timezone, a fetched member, and no
required-role gate, a trigger (role-grant call) occurs iff the local
(month, day) from the resolver equals the record's, the local hour equals
the guild's announcement hour, and the member's live role list does not
already contain the birthday role — the durable ActiveRoleAssignment row
is not consulted. -/
theorem trigger_iff_live_role_guard (env : Env) (gs : GuildSettings)
    (roleID channelID : String) (bd : MemberBirthday) (m : Member)
    (off : Int) (hz : env.zones bd.timezone = some off)
    (hm : env.memberOf gs.guildID bd.userID = some m)
    (hreq : gs.requiredRoleID = none) :
    Effect.roleAdd gs.guildID bd.userID roleID ∈
        processMemberBirthday env gs roleID channelID bd ↔
      (IsBirthdayToday env bd.month bd.day bd.timezone = some true ∧
       ShouldAnnounce env gs.timeUTC bd.timezone = some true ∧
       m.roles.contains roleID = false) := by
  have hreq' : requiredRoleOk gs m = true := by simp [requiredRoleOk, hreq]
  obtain ⟨b1, hbd⟩ : ∃ b, IsBirthdayToday env bd.month bd.day bd.timezone =
      some b := by simp [IsBirthdayToday, GetLocalDate, hz]
  obtain ⟨b2, hha⟩ : ∃ b, ShouldAnnounce env gs.timeUTC bd.timezone =
      some b := by simp [ShouldAnnounce, GetLocalHour, hz]
  cases b1 with
  | false =>
    have htr : processMemberBirthday env gs roleID channelID bd = [] := by
      unfold processMemberBirthday
      rw [hbd]
      simp
    simp [htr, hbd]
  | true =>
    cases b2 with
    | false =>
      have htr : processMemberBirthday env gs roleID channelID bd = [] := by
        unfold processMemberBirthday
        rw [hbd, hha]
        simp
      simp [htr, hha]
    | true =>
      cases hc : m.roles.contains roleID with
      | true =>
        have htr := processMemberBirthday_skip_live_role env gs roleID
          channelID bd m hm hc
        simp [htr, hc]
      | false =>
        rw [processMemberBirthday_trigger env gs roleID channelID bd m
          hbd hha hm hreq' hc]
        cases env.grantOk gs.guildID bd.userID <;> simp [hbd, hha]

/-- C2 (amended): on a trigger the external calls are, in order, the role
grant, the expiry-row store write, and the message send; a grant failure
aborts the store write and the send; and a guild's member evaluations
concatenate independently, so one member's failure cannot abort another
member's processing. -/
theorem trigger_effect_order (env : Env) (gs : GuildSettings)
    (roleID channelID : String) (bd : MemberBirthday) (m : Member)
    (hbd : IsBirthdayToday env bd.month bd.day bd.timezone = some true)
    (hha : ShouldAnnounce env gs.timeUTC bd.timezone = some true)
    (hm : env.memberOf gs.guildID bd.userID = some m)
    (hreq : requiredRoleOk gs m = true)
    (hnr : m.roles.contains roleID = false) :
    (env.grantOk gs.guildID bd.userID = true →
      processMemberBirthday env gs roleID channelID bd =
        [Effect.roleAdd gs.guildID bd.userID roleID,
         Effect.storeUpsert gs.guildID bd.userID
           (computeExpiresAt env bd.timezone gs.timeUTC) env.storeOk,
         Effect.send channelID (birthdayMessage env gs bd m)]) ∧
    (env.grantOk gs.guildID bd.userID = false →
      processMemberBirthday env gs roleID channelID bd =
        [Effect.roleAdd gs.guildID bd.userID roleID]) ∧
    (∀ bds : List MemberBirthday,
      gs.channelID = some channelID → gs.roleID = some roleID →
      env.birthdays gs.guildID = some bds →
      env.guildAccessible gs.guildID = true →
      processGuildBirthdays env gs =
        bds.flatMap (processMemberBirthday env gs roleID channelID)) := by
  refine ⟨?_, ?_, ?_⟩
  · intro hg
    rw [processMemberBirthday_trigger env gs roleID channelID bd m
      hbd hha hm hreq hnr, if_pos hg]
  · intro hg
    rw [processMemberBirthday_trigger env gs roleID channelID bd m
      hbd hha hm hreq hnr, if_neg (by simp [hg])]
  · intro bds hch hro hbds hacc
    unfold processGuildBirthdays
    rw [hch, hro, hbds]
    simp [hacc]

/-- C9: a failed expiry-row store write after a successful grant does not
prevent the announcement: the send call still follows the failed upsert. -/
theorem send_despite_store_failure (env : Env) (gs : GuildSettings)
    (roleID channelID : String) (bd : MemberBirthday) (m : Member)
    (hbd : IsBirthdayToday env bd.month bd.day bd.timezone = some true)
    (hha : ShouldAnnounce env gs.timeUTC bd.timezone = some true)
    (hm : env.memberOf gs.guildID bd.userID = some m)
    (hreq : requiredRoleOk gs m = true)
    (hnr : m.roles.contains roleID = false)
    (hg : env.grantOk gs.guildID bd.userID = true)
    (hs : env.storeOk = false) :
    processMemberBirthday env gs roleID channelID bd =
      [Effect.roleAdd gs.guildID bd.userID roleID,
       Effect.storeUpsert gs.guildID bd.userID
         (computeExpiresAt env bd.timezone gs.timeUTC) false,
       Effect.send channelID (birthdayMessage env gs bd m)] := by
  rw [processMemberBirthday_trigger env gs roleID channelID bd m
    hbd hha hm hreq hnr, if_pos hg, hs]

/-- C3: for every trigger — date match, hour match, member fetched, gate
passed, live role absent, grant succeeded — the expiry recorded by the
store write equals the member's local announcement instant of the current
local day plus 24 hours, as a UTC instant; and in particular, when the
trigger instant is exactly the announcement instant (local time-of-day
equal to the announcement hour with zero minutes), that stored expiry
equals the trigger instant plus 24 hours. -/
theorem stored_expiry_is_announcement_plus_24h (env : Env)
    (gs : GuildSettings) (roleID channelID : String) (bd : MemberBirthday)
    (m : Member) (off : Int)
    (hz : env.zones bd.timezone = some off)
    (hbd : IsBirthdayToday env bd.month bd.day bd.timezone = some true)
    (hha : ShouldAnnounce env gs.timeUTC bd.timezone = some true)
    (hm : env.memberOf gs.guildID bd.userID = some m)
    (hreq : requiredRoleOk gs m = true)
    (hnr : m.roles.contains roleID = false)
    (hg : env.grantOk gs.guildID bd.userID = true) :
    Effect.storeUpsert gs.guildID bd.userID
        (localAnnouncementInstant env off gs.timeUTC + 1440) env.storeOk ∈
      processMemberBirthday env gs roleID channelID bd ∧
    (((env.now + off) % 1440) = 60 * gs.timeUTC →
      localAnnouncementInstant env off gs.timeUTC + 1440 = env.now + 1440) := by
  have hc : computeExpiresAt env bd.timezone gs.timeUTC =
      localAnnouncementInstant env off gs.timeUTC + 1440 := by
    simp [computeExpiresAt, localAnnouncementInstant, hz]
  constructor
  · rw [processMemberBirthday_trigger env gs roleID channelID bd m
      hbd hha hm hreq hnr, if_pos hg, ← hc]
    simp
  · intro hexact
    unfold localAnnouncementInstant
    omega

/-! ## The Expiry Sweeper and the Role-Lifecycle Store -/

/-- C5: every expired row is deleted — after a revoke when the guild's
settings and role id are available, with the revoke skipped otherwise; the
delete is the row's last effect either way. -/
theorem sweeper_always_deletes_row (env : Env)
    (store : List ActiveBirthdayRole) (ar : ActiveBirthdayRole)
    (hl : env.listExpiredOk = true)
    (hmem : ar ∈ getExpiredBirthdayRoles store env.now) :
    Effect.storeDelete ar.guildID ar.userID ∈
      cleanupExpiredBirthdayRoles env store ∧
    (cleanupRow env ar).getLast? =
      some (Effect.storeDelete ar.guildID ar.userID) ∧
    ((∃ r, Effect.roleRemove ar.guildID ar.userID r ∈ cleanupRow env ar) ↔
      (∃ gsr r, env.guildSettings ar.guildID = some gsr ∧
        gsr.roleID = some r)) := by
  have hdel : Effect.storeDelete ar.guildID ar.userID ∈ cleanupRow env ar := by
    unfold cleanupRow
    cases env.guildSettings ar.guildID with
    | none => simp
    | some gsr => cases hr : gsr.roleID <;> simp [hr]
  refine ⟨?_, ?_, ?_⟩
  · unfold cleanupExpiredBirthdayRoles
    rw [hl]
    simpa using List.mem_flatMap.mpr ⟨ar, hmem, hdel⟩
  · unfold cleanupRow
    cases env.guildSettings ar.guildID with
    | none => rfl
    | some gsr => cases hr : gsr.roleID <;> simp [hr]
  · unfold cleanupRow
    cases hg : env.guildSettings ar.guildID with
    | none => simp
    | some gsr =>
      cases hr : gsr.roleID with
      | none => simp [hr]
      | some r => simp [hr]

/-- C6: an upsert immediately followed by a query for expired rows returns,
for the written pair, exactly the written row when the sampled instant has
reached the stored expiry, and nothing before that; the query is
guild-agnostic. -/
theorem upsert_then_listExpired_roundtrip (s : List ActiveBirthdayRole)
    (g u : String) (assignedAt expiresAt now : Int) :
    (getExpiredBirthdayRoles
        (setActiveBirthdayRole s g u assignedAt expiresAt) now).filter
        (fun r => r.guildID == g && r.userID == u) =
      if expiresAt ≤ now then
        [⟨g, u, assignedAt, expiresAt⟩]
      else [] := by
  unfold setActiveBirthdayRole getExpiredBirthdayRoles
  rw [List.filter_append, List.filter_append]
  have hleft : (((s.filter fun r => !(r.guildID == g && r.userID == u)).filter
      fun r => decide (r.roleExpiresAt ≤ now)).filter
      fun r => r.guildID == g && r.userID == u) = [] := by
    apply List.filter_eq_nil_iff.mpr
    intro r hr
    have hr1 := List.mem_filter.mp hr
    have hr2 := List.mem_filter.mp hr1.1
    have := hr2.2
    simp at this ⊢
    tauto
  rw [hleft]
  by_cases he : expiresAt ≤ now <;> simp [he]

/-- C8: the within-day repeat guard is live platform role membership, not
the durable store: a member already carrying the role live is skipped with
no effects, while a durable active-role row — for any store contents —
does not prevent the trigger when the live role is absent. -/
theorem repeat_guard_is_live_membership (env : Env) (gs : GuildSettings)
    (roleID channelID : String) (bd : MemberBirthday) (m : Member)
    (s : List ActiveBirthdayRole)
    (hm : env.memberOf gs.guildID bd.userID = some m) :
    (m.roles.contains roleID = true →
      processMemberBirthday env gs roleID channelID bd = []) ∧
    (hasActiveBirthdayRole s gs.guildID bd.userID = true →
      IsBirthdayToday env bd.month bd.day bd.timezone = some true →
      ShouldAnnounce env gs.timeUTC bd.timezone = some true →
      requiredRoleOk gs m = true →
      m.roles.contains roleID = false →
      Effect.roleAdd gs.guildID bd.userID roleID ∈
        processMemberBirthday env gs roleID channelID bd) := by
  refine ⟨fun hc => processMemberBirthday_skip_live_role env gs roleID
    channelID bd m hm hc, ?_⟩
  intro _ hbd hha hreq hnr
  rw [processMemberBirthday_trigger env gs roleID channelID bd m
    hbd hha hm hreq hnr]
  cases env.grantOk gs.guildID bd.userID <;> simp

/-! ## Phase ordering within one pass -/

/-- A member evaluation emits no effects, a single failed grant, or the
grant-upsert-send triple. -/
theorem processMemberBirthday_cases (env : Env) (gs : GuildSettings)
    (roleID channelID : String) (bd : MemberBirthday) :
    processMemberBirthday env gs roleID channelID bd = [] ∨
    processMemberBirthday env gs roleID channelID bd =
      [Effect.roleAdd gs.guildID bd.userID roleID] ∨
    ∃ e ok msg, processMemberBirthday env gs roleID channelID bd =
      [Effect.roleAdd gs.guildID bd.userID roleID,
       Effect.storeUpsert gs.guildID bd.userID e ok,
       Effect.send channelID msg] := by
  unfold processMemberBirthday
  dsimp only
  repeat' split
  all_goals first
  | exact Or.inl rfl
  | exact Or.inr (Or.inl rfl)
  | exact Or.inr (Or.inr ⟨_, _, _, rfl⟩)

/-- Every effect of a member evaluation is an evaluation-phase effect. -/
theorem processMemberBirthday_announce (env : Env) (gs : GuildSettings)
    (roleID channelID : String) (bd : MemberBirthday) :
    ∀ x ∈ processMemberBirthday env gs roleID channelID bd,
      announceEffect x = true := by
  intro x hx
  rcases processMemberBirthday_cases env gs roleID channelID bd with
    h | h | ⟨e, ok, msg, h⟩ <;> rw [h] at hx <;> simp at hx
  · rw [hx]; rfl
  · rcases hx with hx | hx | hx <;> rw [hx] <;> rfl

/-- Every effect of a guild's processing is an evaluation-phase effect. -/
theorem processGuildBirthdays_announce (env : Env) (gs : GuildSettings) :
    ∀ x ∈ processGuildBirthdays env gs, announceEffect x = true := by
  intro x hx
  unfold processGuildBirthdays at hx
  cases hch : gs.channelID with
  | none => rw [hch] at hx; simp at hx
  | some c =>
    cases hro : gs.roleID with
    | none => rw [hch, hro] at hx; simp at hx
    | some r =>
      rw [hch, hro] at hx
      dsimp only at hx
      cases hbs : env.birthdays gs.guildID with
      | none => rw [hbs] at hx; simp at hx
      | some bds =>
        rw [hbs] at hx
        dsimp only at hx
        by_cases hacc : env.guildAccessible gs.guildID = true
        · rw [if_pos hacc] at hx
          rcases List.mem_flatMap.mp hx with ⟨bd, _, hxm⟩
          exact processMemberBirthday_announce env gs r c bd x hxm
        · rw [if_neg hacc] at hx; simp at hx

/-- Every effect of the sweeper is a sweep-phase effect. -/
theorem cleanup_sweep (env : Env) (store : List ActiveBirthdayRole) :
    ∀ x ∈ cleanupExpiredBirthdayRoles env store, sweepEffect x = true := by
  intro x hx
  unfold cleanupExpiredBirthdayRoles at hx
  split at hx
  · simp at hx
  · rcases List.mem_flatMap.mp hx with ⟨ar, _, hxm⟩
    unfold cleanupRow at hxm
    split at hxm
    · simp at hxm; rw [hxm]; rfl
    · split at hxm
      · simp at hxm; rw [hxm]; rfl
      · simp at hxm
        rcases hxm with hxm | hxm <;> rw [hxm] <;> rfl

/-- C7: in one scheduler pass, every sweep-phase effect (role revoke,
expiry-row delete) comes before every evaluation-phase effect (role grant,
expiry-row upsert, message send): the Expiry Sweeper completes before any
per-guild evaluation begins. -/
theorem sweeper_completes_before_evaluation (env : Env)
    (store : List ActiveBirthdayRole) (i j : Nat)
    (hi : i < (processBirthdays env store).length)
    (hj : j < (processBirthdays env store).length)
    (hsi : sweepEffect ((processBirthdays env store).get ⟨i, hi⟩) = true)
    (haj : announceEffect ((processBirthdays env store).get ⟨j, hj⟩) = true) :
    i < j := by
  have hdisj : ∀ x : Effect, sweepEffect x = true → announceEffect x = false := by
    intro x
    cases x <;> simp [sweepEffect, announceEffect]
  have hB : ∀ x ∈ (match env.guilds with
      | none => ([] : List Effect)
      | some gss => gss.flatMap (processGuildBirthdays env)),
      announceEffect x = true := by
    intro x hx
    cases hg : env.guilds with
    | none => rw [hg] at hx; simp at hx
    | some gss =>
      rw [hg] at hx
      rcases List.mem_flatMap.mp hx with ⟨gs, _, hxg⟩
      exact processGuildBirthdays_announce env gs x hxg
  have hAB : processBirthdays env store =
      cleanupExpiredBirthdayRoles env store ++
        (match env.guilds with
         | none => ([] : List Effect)
         | some gss => gss.flatMap (processGuildBirthdays env)) := rfl
  have hiA : i < (cleanupExpiredBirthdayRoles env store).length := by
    by_contra hiA
    push_neg at hiA
    have hmem : (processBirthdays env store).get ⟨i, hi⟩ ∈
        (match env.guilds with
         | none => ([] : List Effect)
         | some gss => gss.flatMap (processGuildBirthdays env)) := by
      rw [List.get_eq_getElem]
      conv in processBirthdays env store => rw [hAB]
      rw [List.getElem_append_right hiA]
      exact List.getElem_mem _
    have h1 := hB _ hmem
    rw [hdisj _ hsi] at h1
    exact Bool.false_ne_true h1
  have hjB : (cleanupExpiredBirthdayRoles env store).length ≤ j := by
    by_contra hjB
    push_neg at hjB
    have hmem : (processBirthdays env store).get ⟨j, hj⟩ ∈
        cleanupExpiredBirthdayRoles env store := by
      rw [List.get_eq_getElem]
      conv in processBirthdays env store => rw [hAB]
      rw [List.getElem_append_left hjB]
      exact List.getElem_mem _
    have h1 := cleanup_sweep env store _ hmem
    rw [hdisj _ h1] at haj
    exact Bool.false_ne_true haj
  omega

/-- C10 (amended): `formatMessage` substitutes sequentially — mention, then
name, then (only with an age) age — so for any template presented as
literal segments and placeholders, with the literal segments, the name,
and the user id free of placeholder-opening braces, every placeholder
occurrence is substituted simultaneously-style: mention placeholders become
the mention text, name placeholders the name, age placeholders the age when
supplied and stay verbatim otherwise, and all literal characters are
unchanged. -/
theorem formatMessage_renders_placeholders (ps : List Piece)
    (nm userID : List Char) (age : Option Int)
    (hl : ∀ s, Piece.lit s ∈ ps → '{' ∉ s)
    (hn : '{' ∉ nm) (hu : '{' ∉ userID) :
    formatMessage (flattenPieces ps) nm userID age =
      renderPieces userID nm age ps := by
  unfold formatMessage
  cases age with
  | some a =>
    dsimp only
    rw [replaceAll_mention_flatten userID ps hl,
      replaceAll_name_render userID nm hu ps hl,
      replaceAll_age_render userID nm a hu hn ps hl]
  | none =>
    dsimp only
    rw [replaceAll_mention_flatten userID ps hl,
      replaceAll_name_render userID nm hu ps hl,
      renderPieces_none userID nm ps]

/-! ## Concrete fixtures for counterexamples and witnesses -/

/-- A member with no live roles. -/
def wMember : Member := ⟨['b', 'o', 'b'], []⟩

/-- A member already carrying the birthday role live. -/
def wMemberWithRole : Member := ⟨['b', 'o', 'b'], ["role1"]⟩

/-- A fully configured guild announcing at hour 9. -/
def wGs : GuildSettings :=
  ⟨"g1", some "chan1", some "role1", 9, ['Y'], ['N'], false, none, "UTC"⟩

/-- The same guild announcing at hour 14. -/
def wGs14 : GuildSettings :=
  ⟨"g1", some "chan1", some "role1", 14, ['Y'], ['N'], false, none, "UTC"⟩

/-- A birthday record for March 15 in a UTC-5 zone. -/
def wBd : MemberBirthday := ⟨"u1", 3, 15, none, "America/New_York"⟩

/-- The same record with an unrecognized timezone identifier. -/
def wBdBadTz : MemberBirthday := ⟨"u1", 3, 15, none, "Nope/Nope"⟩

/-- Sampled instant 840 (14:00 UTC, 09:00 at UTC-5) on a day whose civil
date is March 15, 2024; every external call succeeds. -/
def wEnv : Env where
  now := 840
  zones := fun s =>
    if s = "UTC" then some 0
    else if s = "America/New_York" then some (-300)
    else none
  calendar := fun _ => ⟨2024, 3, 15⟩
  memberOf := fun _ _ => some wMember
  grantOk := fun _ _ => true
  storeOk := true
  guilds := some [wGs]
  birthdays := fun _ => some [wBd]
  guildAccessible := fun _ => true
  guildSettings := fun g => if g = "g1" then some wGs else none
  listExpiredOk := true

/-- `wEnv` but the fetched member already carries the birthday role. -/
def wEnvLive : Env := { wEnv with memberOf := fun _ _ => some wMemberWithRole }

/-- `wEnv` but the expiry-row store write fails. -/
def wEnvStoreFail : Env := { wEnv with storeOk := false }

/-- `wEnv` but the role grant fails. -/
def wEnvNoGrant : Env := { wEnv with grantOk := fun _ _ => false }

/-- `wEnv` at instant 870 (14:30 UTC): a mid-hour trigger, local time
09:30 at UTC-5. -/
def wEnvMid : Env := { wEnv with now := 870 }

/-- A store holding one role row for member u2 that expired at instant 100. -/
def wStore : List ActiveBirthdayRole := [⟨"g1", "u2", 0, 100⟩]

/-- A template: literal text, a mention placeholder, more literal text, and
an age placeholder. -/
def wPieces : List Piece :=
  [Piece.lit ['H', 'i', ' '], Piece.mention, Piece.lit [' '], Piece.newAge]

/-! ## Counterexamples -/

/-- C1 counterexample: at a concrete instant the resolver's (month, day)
matches the record, the local hour matches the guild hour, and there is no
ActiveRoleAssignment row — all three claimed conditions hold — yet no
trigger occurs, because the member's live role list already carries the
birthday role. -/
theorem trigger_claim_counterexample :
    IsBirthdayToday wEnvLive 3 15 "America/New_York" = some true ∧
    ShouldAnnounce wEnvLive 9 "America/New_York" = some true ∧
    hasActiveBirthdayRole [] "g1" "u1" = false ∧
    processMemberBirthday wEnvLive wGs "role1" "chan1" wBd = [] := by
  decide

/-- C2 counterexample: on a concrete trigger with every call succeeding,
the emitted order is role grant, store write, message send — not the
claimed role grant, message send, store write. -/
theorem effect_order_counterexample :
    processMemberBirthday wEnv wGs "role1" "chan1" wBd =
      [Effect.roleAdd "g1" "u1" "role1",
       Effect.storeUpsert "g1" "u1" 2280 true,
       Effect.send "chan1" ['N']] ∧
    processMemberBirthday wEnv wGs "role1" "chan1" wBd ≠
      [Effect.roleAdd "g1" "u1" "role1",
       Effect.send "chan1" ['N'],
       Effect.storeUpsert "g1" "u1" 2280 true] := by
  decide

/-- C4 counterexample: for a member with an unrecognized timezone, the UTC
date check matches and the UTC hour equals the guild hour 14, so the
claimed UTC-fallback evaluation would trigger — yet the member is skipped
with no effects, because the hour check's resolver error returns early. -/
theorem utc_fallback_counterexample :
    wEnv.zones "Nope/Nope" = none ∧
    IsBirthdayToday wEnv 3 15 "UTC" = some true ∧
    ShouldAnnounce wEnv 14 "UTC" = some true ∧
    processMemberBirthday wEnv wGs14 "role1" "chan1" wBdBadTz = [] := by
  decide

/-- C10 counterexample: with template the name placeholder, name the age
placeholder text, and age 30 supplied, the output is the rendered age, not
the name verbatim as the claim requires. -/
theorem formatMessage_counterexample :
    formatMessage namePat agePat ['u'] (some 30) = ['3', '0'] ∧
    formatMessage namePat agePat ['u'] (some 30) ≠ agePat := by
  decide

/-! ## Witnesses -/

/-- Witness for C1 (amended) at the concrete trigger instant. -/
theorem trigger_iff_live_role_guard_witness :
    Effect.roleAdd "g1" "u1" "role1" ∈
      processMemberBirthday wEnv wGs "role1" "chan1" wBd :=
  (trigger_iff_live_role_guard wEnv wGs "role1" "chan1" wBd wMember (-300)
    (by decide) (by decide) (by decide)).mpr
    ⟨by decide, by decide, by decide⟩

/-- Witness for C2 (amended) at the concrete trigger instant. -/
theorem trigger_effect_order_witness :
    processMemberBirthday wEnv wGs "role1" "chan1" wBd =
      [Effect.roleAdd "g1" "u1" "role1",
       Effect.storeUpsert "g1" "u1" 2280 true,
       Effect.send "chan1" ['N']] :=
  (trigger_effect_order wEnv wGs "role1" "chan1" wBd wMember
    (by decide) (by decide) (by decide) (by decide) (by decide)).1 (by decide)

/-- Witness for C3: a mid-hour trigger at instant 870 (local 09:30) stores
the announcement-instant-plus-24h expiry, and at the exact announcement
instant 840 (local 09:00) that expiry equals the trigger instant plus 24
hours. -/
theorem stored_expiry_witness :
    Effect.storeUpsert "g1" "u1"
        (localAnnouncementInstant wEnvMid (-300) 9 + 1440) true ∈
      processMemberBirthday wEnvMid wGs "role1" "chan1" wBd ∧
    localAnnouncementInstant wEnv (-300) 9 + 1440 = 840 + 1440 := by
  have hmid := stored_expiry_is_announcement_plus_24h wEnvMid wGs "role1"
    "chan1" wBd wMember (-300) (by decide) (by decide) (by decide)
    (by decide) (by decide) (by decide) (by decide)
  have hex := stored_expiry_is_announcement_plus_24h wEnv wGs "role1"
    "chan1" wBd wMember (-300) (by decide) (by decide) (by decide)
    (by decide) (by decide) (by decide) (by decide)
  exact ⟨hmid.1, hex.2 (by decide)⟩

/-- Witness for C4 (amended) at the concrete unrecognized timezone. -/
theorem invalid_timezone_member_skipped_witness :
    processMemberBirthday wEnv wGs "role1" "chan1" wBdBadTz = [] :=
  (invalid_timezone_member_skipped wEnv wGs "role1" "chan1" wBdBadTz
    (by decide)).2.2

/-- Witness for C5 at a concrete expired row. -/
theorem sweeper_always_deletes_row_witness :
    Effect.storeDelete "g1" "u2" ∈ cleanupExpiredBirthdayRoles wEnv wStore :=
  (sweeper_always_deletes_row wEnv wStore ⟨"g1", "u2", 0, 100⟩
    (by decide) (by decide)).1

/-- Witness for C7 at a concrete pass: its trace has five effects, and the
sweep effect at index 1 precedes the evaluation effect at index 2. -/
theorem sweeper_completes_before_evaluation_witness :
    (processBirthdays wEnv wStore).length = 5 ∧ (1 : Nat) < 2 :=
  ⟨by decide,
   sweeper_completes_before_evaluation wEnv wStore 1 2
     (by decide) (by decide) (by decide) (by decide)⟩

/-- Witness for C8: a durable row for the member is in the store, the live
role is absent, and the (failing) grant is still attempted. -/
theorem repeat_guard_witness :
    Effect.roleAdd "g1" "u1" "role1" ∈
      processMemberBirthday wEnvNoGrant wGs "role1" "chan1" wBd :=
  (repeat_guard_is_live_membership wEnvNoGrant wGs "role1" "chan1" wBd
      wMember [⟨"g1", "u1", 0, 9999⟩] (by decide)).2
    (by decide) (by decide) (by decide) (by decide) (by decide)

/-- Witness for C9: with the store write failing, the send still follows. -/
theorem send_despite_store_failure_witness :
    processMemberBirthday wEnvStoreFail wGs "role1" "chan1" wBd =
      [Effect.roleAdd "g1" "u1" "role1",
       Effect.storeUpsert "g1" "u1" 2280 false,
       Effect.send "chan1" ['N']] :=
  send_despite_store_failure wEnvStoreFail wGs "role1" "chan1" wBd wMember
    (by decide) (by decide) (by decide) (by decide) (by decide)
    (by decide) (by decide)

/-- Witness for C10 (amended) on a concrete template with a mention and an
age placeholder and no age supplied. -/
theorem formatMessage_renders_placeholders_witness :
    formatMessage (flattenPieces wPieces) ['B', 'o', 'b'] ['u', '1'] none =
      ['H', 'i', ' ', '<', '@', 'u', '1', '>', ' ',
       '{', 'n', 'e', 'w', '_', 'a', 'g', 'e', '}'] := by
  have h := formatMessage_renders_placeholders wPieces ['B', 'o', 'b']
    ['u', '1'] none ?hl (by decide) (by decide)
  · rw [h]; decide
  case hl =>
    intro s hs
    simp only [wPieces, List.mem_cons, List.mem_singleton] at hs
    rcases hs with h | h | h | h
    · injection h with h; subst h; decide
    · exact absurd h (by simp)
    · injection h with h; subst h; decide
    · exact absurd h (by simp)
